import Mathlib

/-!
# Verification of the OLAP dashboard (`olap_visualization.py`)

Shallow embedding of the data model and the four aggregation routines
(Dice, Drill-Down, Roll-Up, Slice) of the dashboard, together with the
loader / dispatch control flow.  Pandas primitives are embedded by their
documented semantics:

* `DataFrame.groupby(keys, sort=True).agg('sum')` — rows are folded left to
  right into an association list keyed by the grouping key (a new key is
  appended, an existing key accumulates the measures), and the resulting
  group list is sorted ascending by key.
* `DataFrame.nlargest(n, col)` (default `keep='first'`) — a stable descending
  sort on `col` followed by `take n`; equivalently, sorting the index-annotated
  rows by the lexicographic order (value descending, position ascending) and
  taking the first `n`.
* `DataFrame.sort_values(col)` — a sort by `col` (stability is irrelevant to
  the claims below, which only use sortedness of the result).

Monetary amounts (`total_sum_usd`, …, float64 in pandas) are modelled as `ℚ`,
integer measures (`quantity`) as `ℤ`, counts as `ℕ`.  Order dates are modelled
structurally as year/month/day triples; `pd.to_datetime` on such a value is
the identity, and the string period labels (`'%Y-%m'`, `'YYYY QN'`, `str(year)`)
are replaced by the structured values they are injective images of.
-/

namespace Olap

/-- A calendar date as produced by `pd.to_datetime` on `order_date`
(year, month, day components, cf. `dt.year` / `dt.month` / `dt.day`). -/
structure Date where
  year : ℕ
  month : ℕ
  day : ℕ
deriving DecidableEq, Repr

/-- One row of the joined fact table produced by the loader's fact query
(`fct_sales_dd` joined with the three dimensions): the 14 selected columns. -/
structure FactRow where
  order_number : ℕ
  order_date : Date
  quantity : ℤ
  total_sum_usd : ℚ
  total_sum_eur : ℚ
  model_name : String
  category_name : String
  car_status : String
  car_price : ℚ
  cus_bus_name : String
  city_name : String
  country_name : String
  employee_first_name : String
  employee_last_name : String
deriving DecidableEq, Repr

/-! ## Grouped aggregation (`groupby(...).agg('sum')`)

`addToGroups acc k v` is one accumulation step: the measure `v` is added into
the entry of key `k`, a fresh key is appended at the end.  `groupSums key m t`
folds the whole table; the per-operation definitions below sort the result by
key, as `groupby(sort=True)` does. -/

variable {α : Type} {K : Type} {M : Type}

/-- One `groupby` accumulation step. -/
def addToGroups [DecidableEq K] [Add M] : List (K × M) → K → M → List (K × M)
  | [], k, v => [(k, v)]
  | (k', w) :: rest, k, v =>
    if k' = k then (k', w + v) :: rest else (k', w) :: addToGroups rest k v

/-- The unsorted group table: fold the rows of `t` into groups keyed by
`key`, summing the measure `m`. -/
def groupSums [DecidableEq K] [Add M] (key : α → K) (m : α → M) (t : List α) :
    List (K × M) :=
  t.foldl (fun acc r => addToGroups acc (key r) (m r)) []

/-- Sum of the measures of the group entries whose key satisfies `p`. -/
def predSum [AddCommMonoid M] (p : K → Bool) (l : List (K × M)) : M :=
  ((l.filter fun e => p e.1).map Prod.snd).sum

/-- Sum of the measure `m` over the rows of `t` whose key satisfies `p`:
the "raw" side of the aggregation contracts. -/
def rawSum [AddCommMonoid M] (key : α → K) (m : α → M) (p : K → Bool)
    (t : List α) : M :=
  ((t.filter fun r => p (key r)).map m).sum

/-! ## Top-N selection (`DataFrame.nlargest(n, col)` with default `keep='first'`)

pandas selects via a stable (mergesort) descending sort on the column and
takes the first `n` rows; equivalently, it sorts the position-annotated rows
by the total order "value descending, then position ascending" and takes the
first `n`.  We embed the latter form, which makes the tie-breaking by input
position explicit. -/

/-- The ranking order of `nlargest` on position-annotated rows: value
descending, position ascending. -/
def nlRel (rev : α → ℚ) (p q : ℕ × α) : Prop :=
  rev q.2 < rev p.2 ∨ (rev p.2 = rev q.2 ∧ p.1 ≤ q.1)

instance (rev : α → ℚ) : DecidableRel (nlRel rev) := fun p q => by
  unfold nlRel; infer_instance

instance (rev : α → ℚ) : IsTotal (ℕ × α) (nlRel rev) where
  total p q := by
    unfold nlRel
    rcases lt_trichotomy (rev p.2) (rev q.2) with h | h | h
    · exact Or.inr (Or.inl h)
    · rcases Nat.le_total p.1 q.1 with h1 | h1
      · exact Or.inl (Or.inr ⟨h, h1⟩)
      · exact Or.inr (Or.inr ⟨h.symm, h1⟩)
    · exact Or.inl (Or.inl h)

instance (rev : α → ℚ) : IsTrans (ℕ × α) (nlRel rev) where
  trans p q s hpq hqs := by
    rcases hpq with h1 | ⟨h1, h1'⟩ <;> rcases hqs with h2 | ⟨h2, h2'⟩
    · exact Or.inl (h2.trans h1)
    · exact Or.inl (by rw [← h2]; exact h1)
    · exact Or.inl (by rw [h1]; exact h2)
    · exact Or.inr ⟨h1.trans h2, h1'.trans h2'⟩

/-- The position-annotated result of `nlargest n` on `l`. -/
def nlargestIdx (n : ℕ) (rev : α → ℚ) (l : List α) : List (ℕ × α) :=
  (List.insertionSort (nlRel rev) l.enum).take n

/-- `DataFrame.nlargest(n, col)`: the first `n` rows of the stable
descending sort of `l` by `rev`. -/
def nlargest (n : ℕ) (rev : α → ℚ) (l : List α) : List α :=
  (nlargestIdx n rev l).map Prod.snd

/-! ## Key orders used by `groupby(sort=True)`

Python compares strings lexicographically by Unicode code point; the
comparison below is that order, written by structural recursion on the
character lists. -/

/-- Strict code-point lexicographic order on character lists. -/
def listCharLtB : List Char → List Char → Bool
  | [], [] => false
  | [], _ :: _ => true
  | _ :: _, [] => false
  | a :: as, b :: bs =>
    if a.val < b.val then true
    else if b.val < a.val then false
    else listCharLtB as bs

/-- Non-strict code-point lexicographic order on character lists. -/
def listCharLeB : List Char → List Char → Bool
  | [], _ => true
  | _ :: _, [] => false
  | a :: as, b :: bs =>
    if a.val < b.val then true
    else if b.val < a.val then false
    else listCharLeB as bs

/-- Python's `<` on strings. -/
def strLt (a b : String) : Prop := listCharLtB a.data b.data = true

instance : DecidableRel strLt := fun a b => by
  unfold strLt; infer_instance

/-- Python's `<=` on strings. -/
def strLe (a b : String) : Prop := listCharLeB a.data b.data = true

instance : DecidableRel strLe := fun a b => by
  unfold strLe; infer_instance

/-- Lexicographic order on string pairs: the order of a two-column group
key (tuples compare componentwise in Python). -/
def strPairLe (a b : String × String) : Prop :=
  strLt a.1 b.1 ∨ (a.1 = b.1 ∧ strLe a.2 b.2)

instance : DecidableRel strPairLe := fun a b => by
  unfold strPairLe; infer_instance

/-- Ordering of group entries by their key. -/
def entryLe {K : Type} (le : K → K → Prop) (a b : K × M) : Prop := le a.1 b.1

instance {K : Type} (le : K → K → Prop) [DecidableRel le] :
    DecidableRel (entryLe (M := M) le) := fun a b => by
  unfold entryLe; infer_instance

/-! ## Dice (`operation == "Dicing"`)

`country_category_sales = fact_sales.groupby(['country_name',
'category_name']).agg({'total_sum_usd': 'sum', 'quantity': 'sum'})
.reset_index()`, then `country_totals = country_category_sales
.groupby('country_name')['total_sum_usd'].sum()` and
`top_combinations = country_category_sales.nlargest(5, 'total_sum_usd')`. -/

/-- Dice grouping key: `(country_name, category_name)`. -/
def diceKey (r : FactRow) : String × String := (r.country_name, r.category_name)

/-- Dice measures: `(total_sum_usd, quantity)`. -/
def diceMeasure (r : FactRow) : ℚ × ℤ := (r.total_sum_usd, r.quantity)

/-- `country_category_sales`: grouped sums keyed by (country, category),
sorted ascending by key as `groupby(sort=True)` does. -/
def country_category_sales (t : List FactRow) :
    List ((String × String) × (ℚ × ℤ)) :=
  List.insertionSort (entryLe strPairLe) (groupSums diceKey diceMeasure t)

/-- `country_totals`: revenue regrouped by country over the Dice aggregate. -/
def country_totals (t : List FactRow) : List (String × ℚ) :=
  List.insertionSort (entryLe strLe)
    (groupSums (fun e => e.1.1) (fun e => e.2.1) (country_category_sales t))

/-- `top_combinations`: the Dice top-5 rows by `total_sum_usd`. -/
def top_combinations (t : List FactRow) : List ((String × String) × (ℚ × ℤ)) :=
  nlargest 5 (fun e => e.2.1) (country_category_sales t)

/-- Total Dice-aggregate revenue of one country: the value `country_totals`
holds for that country, and the parent value of the country's treemap box. -/
def countryParentTotal (t : List FactRow) (c : String) : ℚ :=
  rawSum (fun e : (String × String) × (ℚ × ℤ) => e.1.1) (fun e => e.2.1)
    (fun k => decide (k = c)) (country_category_sales t)

/-- The in-box percentage label of a Dice cell (plotly's `percentParent`):
the cell's revenue divided by the revenue of its parent country. -/
def diceShare (t : List FactRow) (e : (String × String) × (ℚ × ℤ)) : ℚ :=
  e.2.1 / countryParentTotal t e.1.1

/-! ## Drill-Down (`operation == "Drill-Down"`)

`country_sales = fact_sales.groupby('country_name')['total_sum_usd'].sum()
.reset_index()` and `city_sales = fact_sales.groupby(['country_name',
'city_name'])['total_sum_usd'].sum().reset_index()`. -/

/-- `country_sales`: revenue grouped by country. -/
def country_sales (t : List FactRow) : List (String × ℚ) :=
  List.insertionSort (entryLe strLe)
    (groupSums (fun r => r.country_name) (fun r => r.total_sum_usd) t)

/-- `city_sales`: revenue grouped by (country, city). -/
def city_sales (t : List FactRow) : List ((String × String) × ℚ) :=
  List.insertionSort (entryLe strPairLe)
    (groupSums (fun r => (r.country_name, r.city_name))
      (fun r => r.total_sum_usd) t)

/-! ## Roll-Up (`operation == "Roll-Up"`)

The routine derives `year`, `quarter`, `month`, `day` from `order_date`
(`dt.year`, `dt.quarter = (month - 1) / 3 + 1`, `dt.month`, `dt.day`), the
labels `year_month` (`'%Y-%m'`), `year_quarter` (`'YYYY QN'`), groups by the
label of the chosen granularity, derives the `period` datetime column from
the label (`pd.to_datetime(year_month + '-01')`, `pd.to_datetime('YYYY-QN')`
= first day of the quarter, `pd.to_datetime(str(year) + '-01-01')`), and
sorts the aggregate by `period` (`sort_values('period')`).  The string
labels are replaced by the structured values they are injective images of:
`(year, month)`, `(year, quarter)` and `(year, 0)` respectively. -/

/-- The Roll-Up granularity chosen with the `st.radio` control. -/
inductive Gran where
  | monthly
  | quarterly
  | yearly
deriving DecidableEq, Repr

/-- `dt.quarter`. -/
def quarterOf (m : ℕ) : ℕ := (m - 1) / 3 + 1

/-- The grouping label of a fact row at a granularity. -/
def granKey : Gran → FactRow → ℕ × ℕ
  | .monthly, r => (r.order_date.year, r.order_date.month)
  | .quarterly, r => (r.order_date.year, quarterOf r.order_date.month)
  | .yearly, r => (r.order_date.year, 0)

/-- The `period` datetime derived from a grouping label. -/
def periodOf : Gran → ℕ × ℕ → Date
  | .monthly, (y, m) => ⟨y, m, 1⟩
  | .quarterly, (y, q) => ⟨y, 3 * (q - 1) + 1, 1⟩
  | .yearly, (y, _) => ⟨y, 1, 1⟩

/-- A row of the Roll-Up aggregate: label columns, the two summed measures
and the derived `period` column. -/
structure PeriodRow where
  label : ℕ × ℕ
  total_sum_usd : ℚ
  quantity : ℤ
  period : Date
deriving DecidableEq, Repr

/-- Chronological order on dates. -/
def dateLe (a b : Date) : Prop :=
  a.year < b.year ∨
    (a.year = b.year ∧
      (a.month < b.month ∨ (a.month = b.month ∧ a.day ≤ b.day)))

instance : DecidableRel dateLe := fun a b => by
  unfold dateLe; infer_instance

/-- `sort_values('period')` order on Roll-Up rows. -/
def periodRowLe (a b : PeriodRow) : Prop := dateLe a.period b.period

instance : DecidableRel periodRowLe := fun a b => by
  unfold periodRowLe; infer_instance

instance : IsTotal Date dateLe where
  total a b := by unfold dateLe; omega

instance : IsTrans Date dateLe where
  trans a b c hab hbc := by unfold dateLe at *; omega

instance : IsTotal PeriodRow periodRowLe where
  total a b := IsTotal.total (r := dateLe) a.period b.period

instance : IsTrans PeriodRow periodRowLe where
  trans a b c hab hbc := IsTrans.trans (r := dateLe) a.period b.period c.period hab hbc

/-- `period_data`: grouped sums at granularity `g` with the derived `period`
column, sorted by `period`. -/
def period_data (g : Gran) (t : List FactRow) : List PeriodRow :=
  List.insertionSort periodRowLe
    ((groupSums (granKey g) (fun r => (r.total_sum_usd, r.quantity)) t).map
      fun e => ⟨e.1, e.2.1, e.2.2, periodOf g e.1⟩)

/-- The four Roll-Up summary metrics: total revenue, total quantity, average
revenue per period, average quantity per period (`sum` / `mean` over
`period_data`; the mean of an empty table, `NaN` in pandas, is the `ℚ`
division by zero). -/
def rollUpMetrics (g : Gran) (t : List FactRow) : ℚ × ℤ × ℚ × ℚ :=
  let pd := period_data g t
  let ts := (pd.map PeriodRow.total_sum_usd).sum
  let tq := (pd.map PeriodRow.quantity).sum
  (ts, tq, ts / pd.length, (tq : ℚ) / pd.length)

/-! ## Slice (`operation == "Slicing"`)

`employee_sales = fact_sales.groupby(['employee_first_name',
'employee_last_name']).agg({'total_sum_usd': 'sum', 'quantity': 'sum',
'order_number': 'count'}).reset_index()`; the derived `employee_name`
column; `top_employees = employee_sales.nlargest(3, 'total_sum_usd')`; and
per top employee the category breakdown of that employee's fact rows. -/

/-- Slice measures: `(total_sum_usd, quantity, order_number count)`; each
row contributes `1` to the (non-null) count of `order_number`. -/
def sliceMeasure (r : FactRow) : ℚ × ℤ × ℕ := (r.total_sum_usd, r.quantity, 1)

/-- `employee_sales` before the `employee_name` column is added. -/
def employee_sales (t : List FactRow) :
    List ((String × String) × (ℚ × ℤ × ℕ)) :=
  List.insertionSort (entryLe strPairLe)
    (groupSums (fun r => (r.employee_first_name, r.employee_last_name))
      sliceMeasure t)

/-- `employee_sales['employee_name'] = first + ' ' + last`. -/
def withName (e : (String × String) × (ℚ × ℤ × ℕ)) :
    ((String × String) × (ℚ × ℤ × ℕ)) × String :=
  (e, e.1.1 ++ " " ++ e.1.2)

/-- `employee_sales` with the `employee_name` column. -/
def employeeNamed (t : List FactRow) :
    List (((String × String) × (ℚ × ℤ × ℕ)) × String) :=
  (employee_sales t).map withName

/-- `top_employees`: the Slice top-3 rows by `total_sum_usd`. -/
def top_employees (t : List FactRow) :
    List (((String × String) × (ℚ × ℤ × ℕ)) × String) :=
  nlargest 3 (fun e => e.1.2.1) (employeeNamed t)

/-- `employee_categories` for one top employee: category sums over the fact
rows filtered to that employee's first and last name. -/
def employee_categories (t : List FactRow) (fn ln : String) :
    List (String × (ℚ × ℤ)) :=
  List.insertionSort (entryLe strLe)
    (groupSums (fun r => r.category_name)
      (fun r => (r.total_sum_usd, r.quantity))
      (t.filter fun r =>
        decide (r.employee_first_name = fn) &&
        decide (r.employee_last_name = ln)))

/-- Descending revenue order used by the "Complete Employee Ranking"
(`sort_values('total_sum_usd', ascending=False)`). -/
def revDescRel (a b : ((String × String) × (ℚ × ℤ × ℕ)) × String) : Prop :=
  b.1.2.1 ≤ a.1.2.1

instance : DecidableRel revDescRel := fun a b => by
  unfold revDescRel; infer_instance

/-- The "Complete Employee Ranking" table. -/
def employeeRanking (t : List FactRow) :
    List (((String × String) × (ℚ × ℤ × ℕ)) × String) :=
  List.insertionSort revDescRel (employeeNamed t)

/-! ## Dashboard control flow (`olap_visualization` / `load_data_from_dwh`)

The loader returns four tables, all `None` on a connection or query error;
`olap_visualization` checks `any(x is None for x in [...])` and returns
after displaying an error, otherwise the `selectbox` choice dispatches to
one of the four branches.  The dimension tables are loaded but their
contents are never consumed by the branches, so they are modelled as
`Option Unit`. -/

/-- The sidebar operation choice. -/
inductive Operation where
  | dicing
  | drillDown
  | rollUp
  | slicing
deriving DecidableEq, Repr

/-- Everything one operation branch computes for rendering. -/
inductive OpRender where
  | dice (agg : List ((String × String) × (ℚ × ℤ)))
      (totals : List (String × ℚ))
      (top : List ((String × String) × (ℚ × ℤ)))
  | drill (country : List (String × ℚ)) (city : List ((String × String) × ℚ))
  | rollUp (table : List PeriodRow) (metrics : ℚ × ℤ × ℚ × ℚ)
  | slice (agg : List (((String × String) × (ℚ × ℤ × ℕ)) × String))
      (top : List (((String × String) × (ℚ × ℤ × ℕ)) × String))
      (cats : List (List (String × (ℚ × ℤ))))
      (ranking : List (((String × String) × (ℚ × ℤ × ℕ)) × String))
deriving DecidableEq

/-- The aggregation-and-render work of the selected branch. -/
def runOp : Operation → Gran → List FactRow → OpRender
  | .dicing, _, t =>
    .dice (country_category_sales t) (country_totals t) (top_combinations t)
  | .drillDown, _, t => .drill (country_sales t) (city_sales t)
  | .rollUp, g, t => .rollUp (period_data g t) (rollUpMetrics g t)
  | .slicing, _, t =>
    .slice (employeeNamed t) (top_employees t)
      ((top_employees t).map fun e => employee_categories t e.1.1.1 e.1.1.2)
      (employeeRanking t)

/-- The four values returned by `load_data_from_dwh` (all `None` when the
connection or a query fails). -/
structure LoadResult where
  dim_cars : Option Unit
  dim_customers : Option Unit
  dim_employees : Option Unit
  fact_sales : Option (List FactRow)
deriving DecidableEq

/-- What a run of `olap_visualization` leaves on the page. -/
inductive DashOutcome where
  | loadError
  | page (r : OpRender)
deriving DecidableEq

/-- `olap_visualization`: the `any(x is None ...)` guard, then dispatch on
the selected operation. -/
def olap_visualization (ld : LoadResult) (op : Operation) (g : Gran) :
    DashOutcome :=
  match ld.dim_cars, ld.dim_customers, ld.dim_employees, ld.fact_sales with
  | some _, some _, some _, some t => .page (runOp op g t)
  | _, _, _, _ => .loadError

/-! ### Exception propagation (claim C6)

Only the Roll-Up branch is wrapped in `try/except` (displaying the error
and abandoning that branch's rendering); the other three branches run bare,
so an exception raised in them escapes `olap_visualization` to its caller.
A branch body is modelled as an `Except String OpRender` computation. -/

/-- The page state after dispatching a branch whose body may raise. -/
inductive DispatchResult where
  | rendered (r : OpRender)
  | rollUpError (msg : String)
deriving DecidableEq

/-- Dispatch of one branch body: the `try/except` of the Roll-Up branch
turns a raised exception into a displayed message, the other branches
re-raise. -/
def dispatchExc (op : Operation) (comp : Except String OpRender) :
    Except String DispatchResult :=
  match op with
  | .rollUp =>
    .ok (match comp with
      | .ok r => .rendered r
      | .error e => .rollUpError e)
  | _ => comp.map .rendered

/-! ### In-place mutation of the snapshot (claim C7)

The Roll-Up branch assigns `fact_sales['order_date'] =
pd.to_datetime(...)` and adds the derived columns `year`, `quarter`,
`month`, `day`, `year_quarter`, `year_month`, `date` to `fact_sales`
itself (lines 227–236); the other branches only read it.  A dataframe is
modelled as the loaded rows plus the optionally-present derived time
columns (`order_date` being structural, `pd.to_datetime` on it is the
identity; the three string labels are injective images of the four numeric
fields). -/

/-- The per-row values of the seven derived time columns. -/
structure TimeCols where
  year : ℕ
  quarter : ℕ
  month : ℕ
  day : ℕ
deriving DecidableEq, Repr

/-- `dt.year`, `dt.quarter`, `dt.month`, `dt.day` of an order date. -/
def deriveTime (d : Date) : TimeCols :=
  ⟨d.year, quarterOf d.month, d.month, d.day⟩

/-- The `fact_sales` dataframe: the loaded rows, plus the derived time
columns once the Roll-Up branch has added them. -/
structure FactDF where
  rows : List FactRow
  derived : Option (List TimeCols)
deriving DecidableEq, Repr

/-- The effect of one branch on the `fact_sales` dataframe itself. -/
def opMutate : Operation → FactDF → FactDF
  | .rollUp, df => ⟨df.rows, some (df.rows.map fun r => deriveTime r.order_date)⟩
  | _, df => df

/-- One branch as a state-passing function: its render and the dataframe it
leaves behind. -/
def runOpDF (op : Operation) (g : Gran) (df : FactDF) : OpRender × FactDF :=
  (runOp op g df.rows, opMutate op df)

/-! ## A concrete fact row for instantiating the verified properties -/

/-- A sample joined fact row; concrete instantiations below vary its fields
by record update. -/
def sampleRow : FactRow where
  order_number := 1
  order_date := ⟨2021, 5, 3⟩
  quantity := 2
  total_sum_usd := 10
  total_sum_eur := 9
  model_name := "m1"
  category_name := "sedan"
  car_status := "new"
  car_price := 100
  cus_bus_name := "biz"
  city_name := "Linz"
  country_name := "Austria"
  employee_first_name := "Ann"
  employee_last_name := "Lee"

/-- A four-row table with two countries and two categories each. -/
def diceSample : List FactRow :=
  [sampleRow,
    { sampleRow with category_name := "suv", total_sum_usd := 0 },
    { sampleRow with country_name := "Italy", total_sum_usd := 7 },
    { sampleRow with country_name := "Italy", category_name := "suv", total_sum_usd := 3 }]

/-- A six-group table (one country, six categories, distinct revenues). -/
def topSample : List FactRow :=
  [{ sampleRow with category_name := "a", total_sum_usd := 60 },
    { sampleRow with category_name := "b", total_sum_usd := 50 },
    { sampleRow with category_name := "c", total_sum_usd := 40 },
    { sampleRow with category_name := "d", total_sum_usd := 30 },
    { sampleRow with category_name := "e", total_sum_usd := 20 },
    { sampleRow with category_name := "f", total_sum_usd := 10 }]

/-! ## Lemmas about grouped aggregation -/

@[simp] theorem predSum_nil [AddCommMonoid M] (p : K → Bool) :
    predSum (M := M) p [] = 0 := rfl

@[simp] theorem predSum_cons [AddCommMonoid M] (p : K → Bool) (k : K) (w : M)
    (l : List (K × M)) :
    predSum p ((k, w) :: l) = (if p k then w else 0) + predSum p l := by
  by_cases h : p k <;> simp [predSum, h]

theorem predSum_addToGroups [DecidableEq K] [AddCommMonoid M]
    (p : K → Bool) (acc : List (K × M)) (k : K) (v : M) :
    predSum p (addToGroups acc k v) =
      predSum p acc + (if p k then v else 0) := by
  induction acc with
  | nil => simp [addToGroups]
  | cons e rest ih =>
    obtain ⟨k', w⟩ := e
    by_cases hk : k' = k
    · subst hk
      by_cases h : p k' <;> simp [addToGroups, h, add_assoc, add_comm]
    · simp only [addToGroups, if_neg hk, predSum_cons, ih, add_assoc]

@[simp] theorem rawSum_nil [AddCommMonoid M] (key : α → K) (m : α → M)
    (p : K → Bool) : rawSum (M := M) key m p [] = 0 := rfl

@[simp] theorem rawSum_cons [AddCommMonoid M] (key : α → K) (m : α → M)
    (p : K → Bool) (r : α) (t : List α) :
    rawSum key m p (r :: t) =
      (if p (key r) then m r else 0) + rawSum key m p t := by
  by_cases h : p (key r) <;> simp [rawSum, h]

theorem predSum_foldl [DecidableEq K] [AddCommMonoid M]
    (key : α → K) (m : α → M) (p : K → Bool) :
    ∀ (t : List α) (acc : List (K × M)),
      predSum p (t.foldl (fun acc r => addToGroups acc (key r) (m r)) acc) =
        predSum p acc + rawSum key m p t
  | [], acc => by simp
  | r :: t, acc => by
    rw [List.foldl_cons, predSum_foldl key m p t, predSum_addToGroups,
      rawSum_cons, add_assoc]

/-- The aggregated measure of the groups selected by `p` is the sum of the
raw measure over the rows whose key satisfies `p`. -/
theorem predSum_groupSums [DecidableEq K] [AddCommMonoid M]
    (key : α → K) (m : α → M) (p : K → Bool) (t : List α) :
    predSum p (groupSums key m t) = rawSum key m p t := by
  simpa [groupSums] using predSum_foldl key m p t []

theorem mem_fst_addToGroups [DecidableEq K] [Add M]
    (acc : List (K × M)) (k : K) (v : M) (k' : K) :
    k' ∈ (addToGroups acc k v).map Prod.fst ↔
      k' ∈ acc.map Prod.fst ∨ k' = k := by
  induction acc with
  | nil => simp [addToGroups]
  | cons e rest ih =>
    obtain ⟨k0, w⟩ := e
    by_cases hk : k0 = k
    · subst hk; simp [addToGroups]; tauto
    · simp [addToGroups, hk, ih]; tauto

theorem nodup_fst_addToGroups [DecidableEq K] [Add M]
    (acc : List (K × M)) (k : K) (v : M)
    (h : (acc.map Prod.fst).Nodup) :
    ((addToGroups acc k v).map Prod.fst).Nodup := by
  induction acc with
  | nil => simp [addToGroups]
  | cons e rest ih =>
    obtain ⟨k0, w⟩ := e
    simp only [List.map_cons, List.nodup_cons] at h
    by_cases hk : k0 = k
    · subst hk; simpa [addToGroups] using h
    · simp only [addToGroups, if_neg hk, List.map_cons, List.nodup_cons]
      refine ⟨fun hmem => ?_, ih h.2⟩
      rcases (mem_fst_addToGroups rest k v k0).1 hmem with h0 | h0
      · exact h.1 h0
      · exact hk h0

theorem nodup_fst_groupSums [DecidableEq K] [Add M]
    (key : α → K) (m : α → M) (t : List α) :
    ((groupSums key m t).map Prod.fst).Nodup := by
  suffices h : ∀ (t : List α) (acc : List (K × M)),
      (acc.map Prod.fst).Nodup →
      ((t.foldl (fun acc r => addToGroups acc (key r) (m r)) acc).map
        Prod.fst).Nodup by
    exact h t [] (by simp)
  intro t
  induction t with
  | nil => intro acc h; simpa using h
  | cons r t ih =>
    intro acc h
    exact ih _ (nodup_fst_addToGroups acc (key r) (m r) h)

theorem mem_fst_groupSums [DecidableEq K] [Add M]
    (key : α → K) (m : α → M) (t : List α) (k : K) :
    k ∈ (groupSums key m t).map Prod.fst ↔ k ∈ t.map key := by
  suffices h : ∀ (t : List α) (acc : List (K × M)),
      (k ∈ (t.foldl (fun acc r => addToGroups acc (key r) (m r)) acc).map
        Prod.fst) ↔ k ∈ acc.map Prod.fst ∨ k ∈ t.map key by
    simpa [groupSums] using h t []
  intro t
  induction t with
  | nil => intro acc; simp
  | cons r t ih =>
    intro acc
    rw [List.foldl_cons, ih, mem_fst_addToGroups]
    simp only [List.map_cons, List.mem_cons]
    tauto

/-- The number of groups is the number of distinct keys of the table. -/
theorem length_groupSums [DecidableEq K] [Add M]
    (key : α → K) (m : α → M) (t : List α) :
    (groupSums key m t).length = (t.map key).dedup.length := by
  have hperm : ((groupSums key m t).map Prod.fst).Perm (t.map key).dedup := by
    rw [List.perm_ext_iff_of_nodup (nodup_fst_groupSums key m t)
      (t.map key).nodup_dedup]
    intro k
    rw [mem_fst_groupSums, List.mem_dedup]
  simpa using hperm.length_eq

theorem predSum_eq_zero_of_not_mem [DecidableEq K] [AddCommMonoid M]
    (l : List (K × M)) (k : K) (h : k ∉ l.map Prod.fst) :
    predSum (fun k' => decide (k' = k)) l = 0 := by
  induction l with
  | nil => simp
  | cons e rest ih =>
    obtain ⟨k0, w⟩ := e
    simp only [List.map_cons, List.mem_cons] at h
    push_neg at h
    rw [predSum_cons, if_neg (by simpa using Ne.symm h.1), ih h.2, add_zero]

/-- In a group table with no duplicate keys, the entry of key `k` carries
exactly the `predSum` of `k`. -/
theorem mem_group_value [DecidableEq K] [AddCommMonoid M]
    (l : List (K × M)) (k : K) (v : M)
    (hmem : (k, v) ∈ l) (hnd : (l.map Prod.fst).Nodup) :
    v = predSum (fun k' => decide (k' = k)) l := by
  induction l with
  | nil => simp at hmem
  | cons e rest ih =>
    obtain ⟨k0, w⟩ := e
    simp only [List.map_cons, List.nodup_cons] at hnd
    rcases List.mem_cons.1 hmem with h | h
    · obtain ⟨rfl, rfl⟩ := Prod.mk.injEq .. ▸ h
      rw [predSum_cons, if_pos (by simp),
        predSum_eq_zero_of_not_mem rest k hnd.1, add_zero]
    · have hk0 : ¬ (k0 = k) := by
        rintro rfl
        exact hnd.1 (by simpa using List.mem_map_of_mem Prod.fst h)
      rw [predSum_cons, if_neg (by simpa using hk0), ih h hnd.2, zero_add]

theorem nlargestIdx_sublist_sort (n : ℕ) (rev : α → ℚ) (l : List α) :
    (nlargestIdx n rev l).Sublist (List.insertionSort (nlRel rev) l.enum) :=
  List.take_sublist n _

theorem sorted_nlargestIdx (n : ℕ) (rev : α → ℚ) (l : List α) :
    (nlargestIdx n rev l).Sorted (nlRel rev) :=
  (List.sorted_insertionSort (nlRel rev) l.enum).sublist
    (nlargestIdx_sublist_sort n rev l)

theorem mem_enum_of_mem_nlargestIdx {n : ℕ} {rev : α → ℚ} {l : List α}
    {p : ℕ × α} (h : p ∈ nlargestIdx n rev l) : p ∈ l.enum :=
  (List.perm_insertionSort (nlRel rev) l.enum).subset
    ((nlargestIdx_sublist_sort n rev l).subset h)

theorem length_nlargestIdx (n : ℕ) (rev : α → ℚ) (l : List α) :
    (nlargestIdx n rev l).length = min n l.length := by
  rw [nlargestIdx, List.length_take,
    (List.perm_insertionSort (nlRel rev) l.enum).length_eq, List.enum_length]

theorem nodup_nlargestIdx (n : ℕ) (rev : α → ℚ) (l : List α) :
    (nlargestIdx n rev l).Nodup :=
  (((List.perm_insertionSort (nlRel rev) l.enum).nodup_iff).2
    (List.nodup_enum_map_fst l).of_map).sublist (nlargestIdx_sublist_sort n rev l)

/-- Every row left out of the `nlargest` selection ranks no higher than every
selected row: its value is at most the selected one's, and on an exact value
tie its position is strictly later. -/
theorem nlargestIdx_boundary {n : ℕ} {rev : α → ℚ} {l : List α}
    {p q : ℕ × α} (hp : p ∈ l.enum) (hnp : p ∉ nlargestIdx n rev l)
    (hq : q ∈ nlargestIdx n rev l) :
    rev p.2 ≤ rev q.2 ∧ (rev p.2 = rev q.2 → q.1 < p.1) := by
  set s := List.insertionSort (nlRel rev) l.enum with hs
  have hps : p ∈ s := ((List.perm_insertionSort (nlRel rev) l.enum).mem_iff).2 hp
  have hsplit : s = s.take n ++ s.drop n := (List.take_append_drop n s).symm
  have hpdrop : p ∈ s.drop n := by
    rcases List.mem_append.1 (hsplit ▸ hps) with h | h
    · exact absurd h hnp
    · exact h
  have hsorted : s.Pairwise (nlRel rev) := List.sorted_insertionSort _ _
  have hcross : ∀ x ∈ s.take n, ∀ y ∈ s.drop n, nlRel rev x y :=
    (List.pairwise_append.1 (hsplit ▸ hsorted)).2.2
  have hrel : nlRel rev q p := hcross q hq p hpdrop
  have hne : q ≠ p := by
    rintro rfl
    exact hnp hq
  rcases hrel with h | ⟨h, h'⟩
  · exact ⟨le_of_lt h, fun he => absurd he (ne_of_lt h)⟩
  · refine ⟨le_of_eq h.symm, fun _ => lt_of_le_of_ne h' ?_⟩
    intro hidx
    apply hne
    have hqe : q ∈ l.enum := mem_enum_of_mem_nlargestIdx hq
    obtain ⟨i, a⟩ := q
    obtain ⟨j, b⟩ := p
    have h1 := List.mk_mem_enum_iff_getElem?.1 hqe
    have h2 := List.mk_mem_enum_iff_getElem?.1 hp
    simp only at hidx
    subst hidx
    simp only [Prod.mk.injEq, true_and]
    exact Option.some.inj (h1.symm.trans h2)

/-! ## Helper lemmas shared by the claims -/

theorem rawSum_pair {M1 M2 : Type} [AddCommMonoid M1] [AddCommMonoid M2]
    (key : α → K) (m1 : α → M1) (m2 : α → M2) (p : K → Bool) (t : List α) :
    rawSum key (fun r => (m1 r, m2 r)) p t =
      (rawSum key m1 p t, rawSum key m2 p t) := by
  induction t with
  | nil => simp [Prod.ext_iff]
  | cons r t ih =>
    rw [rawSum_cons, rawSum_cons, rawSum_cons, ih]
    by_cases h : p (key r) <;> simp [h, Prod.ext_iff]

/-- The value carried by an entry of a key-sorted group table is the raw
filtered sum of its key. -/
theorem mem_sortedGroup_value [DecidableEq K] [AddCommMonoid M]
    (le : (K × M) → (K × M) → Prop) [DecidableRel le]
    (key : α → K) (m : α → M) (t : List α) (k : K) (v : M)
    (hmem : (k, v) ∈ List.insertionSort le (groupSums key m t)) :
    v = rawSum key m (fun k' => decide (k' = k)) t := by
  have hmem' : (k, v) ∈ groupSums key m t :=
    (List.mem_insertionSort le).1 hmem
  rw [mem_group_value (groupSums key m t) k v hmem' (nodup_fst_groupSums key m t),
    predSum_groupSums]

theorem nodup_map_fst_sortedGroup [DecidableEq K] [Add M]
    (le : (K × M) → (K × M) → Prop) [DecidableRel le]
    (key : α → K) (m : α → M) (t : List α) :
    ((List.insertionSort le (groupSums key m t)).map Prod.fst).Nodup :=
  ((List.perm_insertionSort le (groupSums key m t)).map Prod.fst).nodup_iff.2
    (nodup_fst_groupSums key m t)

theorem nodup_sortedGroup [DecidableEq K] [Add M]
    (le : (K × M) → (K × M) → Prop) [DecidableRel le]
    (key : α → K) (m : α → M) (t : List α) :
    (List.insertionSort le (groupSums key m t)).Nodup :=
  (nodup_map_fst_sortedGroup le key m t).of_map

theorem mem_of_mem_nlargest {n : ℕ} {rev : α → ℚ} {l : List α} {a : α}
    (h : a ∈ nlargest n rev l) : a ∈ l := by
  obtain ⟨p, hp, rfl⟩ := List.mem_map.1 h
  have hpe := mem_enum_of_mem_nlargestIdx hp
  obtain ⟨i, a⟩ := p
  exact List.getElem?_mem (List.mk_mem_enum_iff_getElem?.1 hpe)

theorem length_nlargest (n : ℕ) (rev : α → ℚ) (l : List α) :
    (nlargest n rev l).length = min n l.length := by
  rw [nlargest, List.length_map, length_nlargestIdx]

theorem nodup_nlargest {n : ℕ} {rev : α → ℚ} {l : List α} (h : l.Nodup) :
    (nlargest n rev l).Nodup := by
  refine (nodup_nlargestIdx n rev l).map_on ?_
  intro p hp q hq hsnd
  have hpe := mem_enum_of_mem_nlargestIdx hp
  have hqe := mem_enum_of_mem_nlargestIdx hq
  obtain ⟨i, a⟩ := p
  obtain ⟨j, b⟩ := q
  simp only at hsnd
  subst hsnd
  have h1 := List.mk_mem_enum_iff_getElem?.1 hpe
  have h2 := List.mk_mem_enum_iff_getElem?.1 hqe
  have hi : i < l.length := by
    by_contra hge
    rw [List.getElem?_eq_none (Nat.le_of_not_lt hge)] at h1
    exact Option.noConfusion h1
  have hij : i = j := List.getElem?_inj hi h (h1.trans h2.symm)
  rw [hij]

/-- Descending revenue order of the `nlargest` output. -/
theorem sorted_desc_nlargest (n : ℕ) (rev : α → ℚ) (l : List α) :
    (nlargest n rev l).Sorted (fun a b => rev b ≤ rev a) := by
  refine List.Pairwise.map Prod.snd ?_ (sorted_nlargestIdx n rev l)
  intro p q hpq
  rcases hpq with h | ⟨h, _⟩
  · exact le_of_lt h
  · exact le_of_eq h.symm

/-- With at most `n` groups, `nlargest n` keeps every row (as a
permutation of the input). -/
theorem nlargest_perm_of_le {n : ℕ} {rev : α → ℚ} {l : List α}
    (h : l.length ≤ n) : (nlargest n rev l).Perm l := by
  have hlen : (List.insertionSort (nlRel rev) l.enum).length ≤ n := by
    rw [(List.perm_insertionSort (nlRel rev) l.enum).length_eq,
      List.enum_length]
    exact h
  rw [nlargest, nlargestIdx, List.take_of_length_le hlen]
  have h1 : ((List.insertionSort (nlRel rev) l.enum).map Prod.snd).Perm
      (l.enum.map Prod.snd) :=
    (List.perm_insertionSort (nlRel rev) l.enum).map Prod.snd
  rwa [List.enum_map_snd] at h1

theorem rawSum_triple {M1 M2 M3 : Type} [AddCommMonoid M1] [AddCommMonoid M2]
    [AddCommMonoid M3] (key : α → K) (m1 : α → M1) (m2 : α → M2)
    (m3 : α → M3) (p : K → Bool) (t : List α) :
    rawSum key (fun r => (m1 r, m2 r, m3 r)) p t =
      (rawSum key m1 p t, rawSum key m2 p t, rawSum key m3 p t) := by
  induction t with
  | nil => simp [Prod.ext_iff]
  | cons r t ih =>
    rw [rawSum_cons, rawSum_cons, rawSum_cons, rawSum_cons, ih]
    by_cases h : p (key r) <;> simp [h, Prod.ext_iff]

theorem predSum_perm [AddCommMonoid M] {l l' : List (K × M)} (p : K → Bool)
    (h : l.Perm l') : predSum p l = predSum p l' :=
  ((h.filter _).map Prod.snd).sum_eq

/-! ## The claims -/

/-- **C2**: when the loader fails — signalled by any of the four returned
tables being `None` — the dashboard reports the load error and stops: the
outcome carries no operation rendering, so none of the four aggregation
routines contributes anything to the page. -/
theorem load_failure_short_circuits (ld : LoadResult) (op : Operation)
    (g : Gran)
    (h : ld.dim_cars = none ∨ ld.dim_customers = none ∨
      ld.dim_employees = none ∨ ld.fact_sales = none) :
    olap_visualization ld op g = DashOutcome.loadError := by
  obtain ⟨a, b, c, d⟩ := ld
  cases a <;> cases b <;> cases c <;> cases d <;>
    simp_all [olap_visualization]

theorem load_failure_short_circuits_witness :
    olap_visualization ⟨none, some (), some (), some [sampleRow]⟩
      Operation.dicing Gran.monthly = DashOutcome.loadError :=
  load_failure_short_circuits _ _ _ (Or.inl rfl)

/-- **C4**: for every Roll-Up granularity and fact table, the displayed
`period_data` rows are in chronologically non-decreasing order of their
derived `period` datetime column (which holds the first day of the labelled
month / quarter / year), not merely in label order. -/
theorem rollup_chronological (g : Gran) (t : List FactRow) :
    (period_data g t).Sorted (fun a b => dateLe a.period b.period) ∧
    ∀ e ∈ period_data g t, e.period = periodOf g e.label := by
  constructor
  · exact List.sorted_insertionSort periodRowLe _
  · intro e he
    have he' := (List.mem_insertionSort periodRowLe).1 he
    obtain ⟨⟨k, v⟩, hmem, rfl⟩ := List.mem_map.1 he'
    rfl

theorem rollup_chronological_witness :
    (PeriodRow.mk (2021, 5) 10 2 ⟨2021, 5, 1⟩).period =
      periodOf Gran.monthly (PeriodRow.mk (2021, 5) 10 2 ⟨2021, 5, 1⟩).label :=
  (rollup_chronological Gran.monthly [sampleRow]).2 _ (by decide)

/-- **C6**: an exception raised inside a branch body is caught and shown
only by the Roll-Up branch (whose rendering is abandoned); raised inside
Dice, Drill-Down or Slice it escapes `olap_visualization` uncaught. -/
theorem rollup_only_catches (op : Operation) (e : String) :
    (op = Operation.rollUp →
      dispatchExc op (Except.error e) =
        Except.ok (DispatchResult.rollUpError e)) ∧
    (op ≠ Operation.rollUp →
      dispatchExc op (Except.error e) = Except.error e) := by
  cases op <;> simp [dispatchExc, Except.map]

theorem rollup_only_catches_witness :
    dispatchExc Operation.rollUp (Except.error "boom") =
        Except.ok (DispatchResult.rollUpError "boom") ∧
      dispatchExc Operation.dicing (Except.error "boom") =
        Except.error "boom" :=
  ⟨(rollup_only_catches Operation.rollUp "boom").1 rfl,
    (rollup_only_catches Operation.dicing "boom").2 (by decide)⟩

/-- **C7** (counterexample): the loaded snapshot is not left unmodified by
every routine — on a one-row snapshot the Roll-Up branch changes the
`fact_sales` dataframe in place by adding the derived time columns. -/
theorem rollup_mutates_snapshot :
    (runOpDF Operation.rollUp Gran.monthly ⟨[sampleRow], none⟩).2 ≠
      ⟨[sampleRow], none⟩ := by
  decide

/-- **C7** (amended): Dice, Drill-Down and Slice leave the snapshot
unchanged, but Roll-Up mutates it in place: it converts `order_date`
(an identity on the structural dates) and adds the seven derived time
columns (`year`, `quarter`, `month`, `day`, `year_quarter`, `year_month`,
`date`). -/
theorem snapshot_mutation_rollup_only (df : FactDF) (g : Gran) :
    (runOpDF Operation.dicing g df).2 = df ∧
    (runOpDF Operation.drillDown g df).2 = df ∧
    (runOpDF Operation.slicing g df).2 = df ∧
    (runOpDF Operation.rollUp g df).2 =
      ⟨df.rows, some (df.rows.map fun r => deriveTime r.order_date)⟩ :=
  ⟨rfl, rfl, rfl, rfl⟩

/-- **C10**: each branch's whole computation is a function of the joined
table (and the granularity choice): equal snapshots give identical
aggregates, top-N selections and summary metrics. -/
theorem ops_deterministic (op : Operation) (g : Gran) (t t' : List FactRow)
    (h : t = t') : runOp op g t = runOp op g t' := by
  rw [h]

theorem ops_deterministic_witness :
    runOp Operation.rollUp Gran.quarterly [sampleRow] =
      runOp Operation.rollUp Gran.quarterly [sampleRow] :=
  ops_deterministic Operation.rollUp Gran.quarterly [sampleRow] [sampleRow] rfl

/-- **C1**: for each of the four operations, every row of the aggregated
output carries exactly the sums of its displayed measures over the raw
joined fact rows whose key columns equal that row's grouping key value. -/
theorem agg_sums_match_raw (t : List FactRow) (g : Gran) :
    (∀ e ∈ country_category_sales t,
      e.2.1 = rawSum diceKey (fun r => r.total_sum_usd)
          (fun k => decide (k = e.1)) t ∧
      e.2.2 = rawSum diceKey (fun r => r.quantity)
          (fun k => decide (k = e.1)) t) ∧
    (∀ e ∈ country_sales t,
      e.2 = rawSum (fun r => r.country_name) (fun r => r.total_sum_usd)
          (fun k => decide (k = e.1)) t) ∧
    (∀ e ∈ city_sales t,
      e.2 = rawSum (fun r => (r.country_name, r.city_name))
          (fun r => r.total_sum_usd) (fun k => decide (k = e.1)) t) ∧
    (∀ e ∈ period_data g t,
      e.total_sum_usd = rawSum (granKey g) (fun r => r.total_sum_usd)
          (fun k => decide (k = e.label)) t ∧
      e.quantity = rawSum (granKey g) (fun r => r.quantity)
          (fun k => decide (k = e.label)) t) ∧
    (∀ e ∈ employee_sales t,
      e.2.1 = rawSum (fun r => (r.employee_first_name, r.employee_last_name))
          (fun r => r.total_sum_usd) (fun k => decide (k = e.1)) t ∧
      e.2.2.1 = rawSum (fun r => (r.employee_first_name, r.employee_last_name))
          (fun r => r.quantity) (fun k => decide (k = e.1)) t) := by
  refine ⟨?_, ?_, ?_, ?_, ?_⟩
  · intro e he
    obtain ⟨k, v⟩ := e
    have hv := mem_sortedGroup_value (entryLe strPairLe) diceKey diceMeasure
      t k v he
    rw [show diceMeasure = fun r => (r.total_sum_usd, r.quantity) from rfl,
      rawSum_pair] at hv
    exact ⟨congrArg Prod.fst hv, congrArg Prod.snd hv⟩
  · intro e he
    obtain ⟨k, v⟩ := e
    unfold country_sales at he
    exact mem_sortedGroup_value _ _ _ t k v he
  · intro e he
    obtain ⟨k, v⟩ := e
    unfold city_sales at he
    exact mem_sortedGroup_value _ _ _ t k v he
  · intro e he
    have he' := (List.mem_insertionSort periodRowLe).1 he
    obtain ⟨⟨k, v⟩, hmem, rfl⟩ := List.mem_map.1 he'
    have hv := mem_group_value _ k v hmem
      (nodup_fst_groupSums (granKey g) _ t)
    rw [predSum_groupSums, rawSum_pair] at hv
    exact ⟨congrArg Prod.fst hv, congrArg Prod.snd hv⟩
  · intro e he
    obtain ⟨k, v⟩ := e
    unfold employee_sales at he
    have hv := mem_sortedGroup_value _ _ _ t k v he
    rw [show sliceMeasure = fun r => (r.total_sum_usd, r.quantity, (1 : ℕ))
        from rfl, rawSum_triple] at hv
    exact ⟨congrArg Prod.fst hv, congrArg (fun x => x.2.1) hv⟩

theorem agg_sums_match_raw_witness :
    (10 : ℚ) = rawSum diceKey (fun r => r.total_sum_usd)
        (fun k => decide (k = ("Austria", "sedan"))) [sampleRow] ∧
      (2 : ℤ) = rawSum diceKey (fun r => r.quantity)
        (fun k => decide (k = ("Austria", "sedan"))) [sampleRow] :=
  (agg_sums_match_raw [sampleRow] Gran.monthly).1
    (("Austria", "sedan"), (10, 2)) (by decide)

/-- **C8**: the two Drill-Down levels are mutually consistent: each
country's revenue in the country-level table equals the sum of that
country's rows in the (country, city)-level table. -/
theorem drilldown_levels_consistent (t : List FactRow) :
    ∀ e ∈ country_sales t,
      e.2 = predSum (fun k => decide (k.1 = e.1)) (city_sales t) := by
  intro e he
  obtain ⟨c, s⟩ := e
  unfold country_sales at he
  have hs := mem_sortedGroup_value _ _ _ t c s he
  have hcity : predSum (fun k => decide (k.1 = c)) (city_sales t) =
      predSum (fun k => decide (k.1 = c))
        (groupSums (fun r => (r.country_name, r.city_name))
          (fun r => r.total_sum_usd) t) :=
    predSum_perm _ (List.perm_insertionSort _ _)
  rw [hcity, predSum_groupSums]
  exact hs

theorem drilldown_levels_consistent_witness :
    (10 : ℚ) + 5 = predSum (fun k => decide (k.1 = "Austria"))
      (city_sales [sampleRow,
        { sampleRow with city_name := "Graz", total_sum_usd := 5 },
        { sampleRow with country_name := "Italy", city_name := "Rome", total_sum_usd := 7 }]) :=
  drilldown_levels_consistent _ ("Austria", 10 + 5)
    ((List.mem_insertionSort (entryLe strLe)).mpr (List.Mem.head _))

/-- **C5**: the per-country revenue share of a Dice cell — its revenue over
its country's total, the quantity `country_totals` computes and the in-box
`percentParent` label displays — sums to exactly `1` over the categories of
each country with non-zero total. -/
theorem dice_share_sum (t : List FactRow) :
    (∀ e ∈ country_totals t, e.2 = countryParentTotal t e.1) ∧
    ∀ c : String, countryParentTotal t c ≠ 0 →
      (((country_category_sales t).filter fun e => decide (e.1.1 = c)).map
        (diceShare t)).sum = 1 := by
  constructor
  · intro e he
    obtain ⟨c, v⟩ := e
    unfold country_totals at he
    exact mem_sortedGroup_value _ _ _ _ c v he
  · intro c hc
    have hmap : ((country_category_sales t).filter
        fun e => decide (e.1.1 = c)).map (diceShare t) =
        ((country_category_sales t).filter
          fun e => decide (e.1.1 = c)).map
          (fun e => e.2.1 * (countryParentTotal t c)⁻¹) := by
      apply List.map_congr_left
      intro e he
      have hcc : e.1.1 = c := by simpa using (List.mem_filter.1 he).2
      rw [diceShare, hcc, div_eq_mul_inv]
    have htot : (((country_category_sales t).filter
        fun e => decide (e.1.1 = c)).map (fun e => e.2.1)).sum =
        countryParentTotal t c := rfl
    rw [hmap, List.sum_map_mul_right, htot, mul_inv_cancel₀ hc]

theorem dice_share_sum_witness :
    (((country_category_sales diceSample).filter
      fun e => decide (e.1.1 = "Austria")).map (diceShare diceSample)).sum = 1 :=
  (dice_share_sum diceSample).2 "Austria" (by
    rw [show countryParentTotal diceSample "Austria" = 10 + (0 + 0) from rfl]
    simp)

/-- **C9**: the top-N selections degrade gracefully when there are fewer
groups than `N`: the output always has `min N (number of distinct keys)`
rows, and with fewer than `N` groups it is the whole aggregate, still in
descending revenue order. -/
theorem topn_handles_fewer_groups (t : List FactRow) (_hne : t ≠ []) :
    ((top_combinations t).length = min 5 ((t.map diceKey).dedup).length) ∧
    ((top_employees t).length = min 3 ((t.map fun r =>
      (r.employee_first_name, r.employee_last_name)).dedup).length) ∧
    (((t.map diceKey).dedup).length < 5 →
      (top_combinations t).Perm (country_category_sales t) ∧
      (top_combinations t).Sorted (fun a b => b.2.1 ≤ a.2.1)) ∧
    (((t.map fun r =>
        (r.employee_first_name, r.employee_last_name)).dedup).length < 3 →
      (top_employees t).Perm (employeeNamed t) ∧
      (top_employees t).Sorted (fun a b => b.1.2.1 ≤ a.1.2.1)) := by
  have hccs : (country_category_sales t).length =
      ((t.map diceKey).dedup).length := by
    rw [country_category_sales,
      (List.perm_insertionSort (entryLe strPairLe) _).length_eq,
      length_groupSums]
  have hemp : (employeeNamed t).length =
      ((t.map fun r =>
        (r.employee_first_name, r.employee_last_name)).dedup).length := by
    rw [employeeNamed, List.length_map, employee_sales,
      (List.perm_insertionSort (entryLe strPairLe) _).length_eq,
      length_groupSums]
  refine ⟨?_, ?_, ?_, ?_⟩
  · rw [top_combinations, length_nlargest, hccs]
  · rw [top_employees, length_nlargest, hemp]
  · intro h
    exact ⟨nlargest_perm_of_le (le_of_lt (hccs.trans_lt h)),
      sorted_desc_nlargest 5 _ _⟩
  · intro h
    exact ⟨nlargest_perm_of_le (le_of_lt (hemp.trans_lt h)),
      sorted_desc_nlargest 3 _ _⟩

theorem topn_handles_fewer_groups_witness :
    (top_combinations [sampleRow]).Perm
        (country_category_sales [sampleRow]) ∧
      (top_combinations [sampleRow]).Sorted (fun a b => b.2.1 ≤ a.2.1) :=
  (topn_handles_fewer_groups [sampleRow] (by decide)).2.2.1 (by decide)


/-- **C3**: for every table, the Dice top-5 and Slice top-3 are subsets of
the aggregated rows of size at most 5 resp. 3, without duplicate rows, in
descending revenue order; every excluded row's revenue is at most every
included row's, and revenue ties are chosen and ordered by position in the
aggregated input: the position-annotated selection is sorted by revenue
descending then position ascending, and an excluded tie sits at a strictly
later position than every included one. -/
theorem topn_selection_spec (t : List FactRow) :
    ((top_combinations t).length ≤ 5 ∧
      (∀ e ∈ top_combinations t, e ∈ country_category_sales t) ∧
      (top_combinations t).Nodup ∧
      (top_combinations t).Sorted (fun a b => b.2.1 ≤ a.2.1) ∧
      (nlargestIdx 5 (fun e => e.2.1) (country_category_sales t)).Sorted
        (nlRel fun e => e.2.1) ∧
      ∀ p ∈ (country_category_sales t).enum,
        p ∉ nlargestIdx 5 (fun e => e.2.1) (country_category_sales t) →
        ∀ q ∈ nlargestIdx 5 (fun e => e.2.1) (country_category_sales t),
          p.2.2.1 ≤ q.2.2.1 ∧ (p.2.2.1 = q.2.2.1 → q.1 < p.1)) ∧
    ((top_employees t).length ≤ 3 ∧
      (∀ e ∈ top_employees t, e ∈ employeeNamed t) ∧
      (top_employees t).Nodup ∧
      (top_employees t).Sorted (fun a b => b.1.2.1 ≤ a.1.2.1) ∧
      (nlargestIdx 3 (fun e => e.1.2.1) (employeeNamed t)).Sorted
        (nlRel fun e => e.1.2.1) ∧
      ∀ p ∈ (employeeNamed t).enum,
        p ∉ nlargestIdx 3 (fun e => e.1.2.1) (employeeNamed t) →
        ∀ q ∈ nlargestIdx 3 (fun e => e.1.2.1) (employeeNamed t),
          p.2.1.2.1 ≤ q.2.1.2.1 ∧ (p.2.1.2.1 = q.2.1.2.1 → q.1 < p.1)) := by
  constructor
  · refine ⟨?_, ?_, ?_, ?_, ?_, ?_⟩
    · rw [top_combinations, length_nlargest]
      exact Nat.min_le_left _ _
    · intro e he
      exact mem_of_mem_nlargest he
    · exact nodup_nlargest (nodup_sortedGroup _ diceKey diceMeasure t)
    · exact sorted_desc_nlargest 5 _ _
    · exact sorted_nlargestIdx 5 _ _
    · intro p hp hnp q hq
      exact nlargestIdx_boundary hp hnp hq
  · refine ⟨?_, ?_, ?_, ?_, ?_, ?_⟩
    · rw [top_employees, length_nlargest]
      exact Nat.min_le_left _ _
    · intro e he
      exact mem_of_mem_nlargest he
    · refine nodup_nlargest (List.Nodup.map ?_
        (nodup_sortedGroup _ _ sliceMeasure t))
      intro a b hab
      exact congrArg Prod.fst hab
    · exact sorted_desc_nlargest 3 _ _
    · exact sorted_nlargestIdx 3 _ _
    · intro p hp hnp q hq
      exact nlargestIdx_boundary hp hnp hq

theorem topn_selection_spec_witness :
    ((("Austria", "a"), ((60 : ℚ), (2 : ℤ))) ∈
        country_category_sales topSample) ∧
      ((10 : ℚ) ≤ 60 ∧ ((10 : ℚ) = 60 → (0 : ℕ) < 5)) :=
  ⟨(topn_selection_spec topSample).1.2.1 (("Austria", "a"), (60, 2))
      (by decide),
    (topn_selection_spec topSample).1.2.2.2.2.2
      (5, (("Austria", "f"), (10, 2))) (by decide) (by decide)
      (0, (("Austria", "a"), (60, 2))) (by decide)⟩
